import Mathlib

/-!
Shallow embedding of `src/xpbot.py` (maubot XP plugin).

Modelling choices:
* Python strings are modelled as `List Char` (abbrev `Str`), so that the
  normalizer's character-level behaviour (`strip`, `startswith("@")`,
  `":" in u`, slicing) is embedded structurally.
* Python `str.strip()` removes leading and trailing whitespace; we model the
  whitespace class with `Char.isWhitespace` (space, tab, CR, LF), which covers
  every whitespace character the claims exercise.
* Timestamps are `time.time()` floats in the source; the cooldown logic only
  compares and subtracts them, so they are modelled as integers (`Int`),
  which covers all the integer-valued instants the spec's examples use.
* The SQLite table `xp_users (user_id PRIMARY KEY, xp, last_msg)` is modelled
  as an association list `Ledger := List (Str × UserRow)`; `SELECT ... WHERE
  user_id = ?` is `find?` on the key, and the `INSERT ... ON CONFLICT DO
  UPDATE` upsert updates the row in place or appends a fresh row.
* Python `//` is floor division, so `calc_level` uses `Int.fdiv`.
* Python `int(xp)` is modelled by `parse_int` (optional surrounding
  whitespace, optional sign, a nonempty run of decimal digits; digit-grouping
  underscores are not modelled — no claim exercises them).
* The command handlers `cmd_setxp` / `cmd_leaderboard` additionally return the
  list of database accesses they perform (`Access` trace), so that "no ledger
  read or write performed" is a statable property.
-/

abbrev Str := List Char

def isSpace (c : Char) : Bool := c.isWhitespace

/-- Drop leading whitespace (the leading half of Python `str.strip()`). -/
def ltrim (s : Str) : Str := s.dropWhile isSpace

/-- Drop trailing whitespace (the trailing half of Python `str.strip()`). -/
def rtrim : Str → Str
  | [] => []
  | c :: t =>
    match rtrim t with
    | [] => if isSpace c then [] else [c]
    | r => c :: r

/-- Python `str.strip()`: remove leading and trailing whitespace. -/
def strip (s : Str) : Str := rtrim (ltrim s)

/-- The fixed domain suffix `":j5.chat"` hard-coded in `normalize_user`. -/
def domainSuffix : Str := (":j5.chat").toList

/-- Does the string start with the `@` sigil (Python `u.startswith("@")`)? -/
def startsWithSigil : Str → Bool
  | '@' :: _ => true
  | _ => false

/-- `XpBot.normalize_user` from `src/xpbot.py` lines 57-69. -/
def normalize_user (user : Str) : Str :=
  if user = [] then []
  else
    let u := strip user
    if startsWithSigil u && u.contains ':' then u
    else if startsWithSigil u then '@' :: (u.drop 1) ++ domainSuffix
    else if !(u.contains ':') then '@' :: u ++ domainSuffix
    else u

-- ----- CONFIG (src/xpbot.py lines 9-22) -----

def XP_PER_MESSAGE : Int := 5
def XP_PER_LEVEL : Int := 100
def COOLDOWN : Int := 5

/-- The hard fallback admin set `ADMINS`. -/
def ADMINS : List Str := [("@admin:j5.chat").toList]

/-- `BADGES.items()` sorted by milestone in `reverse=True` order, exactly the
sequence the loop in `get_badge` iterates over. -/
def BADGES_DESC : List (Int × String) :=
  [(20, "🏆 Platinum"), (10, "🥇 Gold"), (5, "🥈 Silver"), (1, "🥉 Bronze")]

/-- The scan inside `get_badge`: first milestone with `level >= milestone`
wins; fall through to the empty label. -/
def badge_scan : List (Int × String) → Int → String
  | [], _ => ""
  | (m, b) :: rest, level => if m ≤ level then b else badge_scan rest level

/-- `XpBot.get_badge` from `src/xpbot.py` lines 99-103. -/
def get_badge (level : Int) : String := badge_scan BADGES_DESC level

/-- `XpBot.calc_level` from `src/xpbot.py` lines 105-106 (`xp // XP_PER_LEVEL`,
Python floor division). -/
def calc_level (xp : Int) : Int := Int.fdiv xp XP_PER_LEVEL

/-- `XpBot.is_admin_or_mod` from `src/xpbot.py` lines 108-109:
`evt.sender in ADMINS`. -/
def is_admin_or_mod (sender : Str) : Bool := ADMINS.contains sender

-- ----- Ledger (the xp_users table) -----

/-- One row of the `xp_users` table: `(xp, last_msg)` for a `user_id` key. -/
structure UserRow where
  xp : Int
  last_msg : Int
deriving DecidableEq, Repr

/-- The `xp_users` table, keyed by `user_id`. -/
abbrev Ledger := List (Str × UserRow)

/-- `XpBot.get_user_row` (lines 71-79): `SELECT ... WHERE user_id = ?`,
`None` when absent. -/
def get_user_row (l : Ledger) (mxid : Str) : Option UserRow :=
  (l.find? (fun p => p.1 == mxid)).map (fun p => p.2)

/-- `XpBot.upsert_user` (lines 81-97): `INSERT ... ON CONFLICT(user_id) DO
UPDATE SET xp = excluded.xp, last_msg = excluded.last_msg`. -/
def upsert_user (l : Ledger) (mxid : Str) (xp last_msg : Int) : Ledger :=
  if l.any (fun p => p.1 == mxid) then
    l.map (fun p => if p.1 == mxid then (mxid, UserRow.mk xp last_msg) else p)
  else
    l ++ [(mxid, UserRow.mk xp last_msg)]

/-- The level-up announcement reply of `on_message` (line 137). -/
structure LevelUpEvent where
  account_key : Str
  new_level : Int
  badge : String
deriving DecidableEq, Repr

/-- The XP-award core of `XpBot.on_message` (lines 120-137), after the
transport-level filters (empty body, self, ignore-list) have passed:
fetch the row (absent means xp 0, last 0), reject silently inside the
cooldown window, otherwise persist `xp + XP_PER_MESSAGE` with `last_msg =
now` and announce a level-up when the level strictly increased. -/
def award (l : Ledger) (mxid : Str) (now : Int) : Ledger × Option LevelUpEvent :=
  let row := get_user_row l mxid
  let xp_now := (row.map (fun r => r.xp)).getD 0
  let last_msg := (row.map (fun r => r.last_msg)).getD 0
  if now - last_msg < COOLDOWN then (l, none)
  else
    let new_xp := xp_now + XP_PER_MESSAGE
    let l1 := upsert_user l mxid new_xp now
    let old_level := calc_level xp_now
    let new_level := calc_level new_xp
    if old_level < new_level then
      (l1, some (LevelUpEvent.mk mxid new_level (get_badge new_level)))
    else (l1, none)

/-- Repeated message events for the same key at the given instants. -/
def award_iter (l : Ledger) (mxid : Str) (ts : List Int) : Ledger :=
  ts.foldl (fun acc t => (award acc mxid t).1) l

-- ----- int() parsing for the setxp command -----

def parse_digits_aux : Str → Nat → Option Nat
  | [], acc => some acc
  | c :: t, acc =>
    if c.isDigit then parse_digits_aux t (acc * 10 + (c.toNat - ('0').toNat))
    else none

/-- A nonempty run of decimal digits, as a number. -/
def parse_digits : Str → Option Nat
  | [] => none
  | s => parse_digits_aux s 0

/-- Python `int(s)` on the setxp argument: optional surrounding whitespace,
optional sign, a nonempty run of decimal digits; anything else raises
`ValueError` (here: `none`). -/
def parse_int (s : Str) : Option Int :=
  match strip s with
  | '-' :: r => (parse_digits r).map (fun n => -(n : Int))
  | '+' :: r => (parse_digits r).map (fun n => (n : Int))
  | t => (parse_digits t).map (fun n => (n : Int))

-- ----- Command handlers with an explicit database-access trace -----

/-- One database access performed by a command handler. -/
inductive Access where
  | read (key : Str)
  | readAll
  | write (key : Str) (xp last_msg : Int)
deriving DecidableEq, Repr

/-- The reply outcome of `cmd_setxp`. -/
inductive SetxpOutcome where
  | unauthorized
  | invalidInput
  | ok (target : Str) (xp_val new_level : Int) (badge : String) (levelUp : Bool)
deriving DecidableEq, Repr

/-- `XpBot.cmd_setxp` (lines 159-184): admin gate first, then parse the xp
string, then read-modify-write the target row, carrying the stored
`last_msg` forward (0 when the row is absent).  The third component lists
the database accesses performed. -/
def cmd_setxp (l : Ledger) (sender user xpstr : Str) :
    Ledger × SetxpOutcome × List Access :=
  if !(is_admin_or_mod sender) then (l, SetxpOutcome.unauthorized, [])
  else
    let target := normalize_user user
    match parse_int xpstr with
    | none => (l, SetxpOutcome.invalidInput, [])
    | some xp_val =>
      let row := get_user_row l target
      let old_xp := (row.map (fun r => r.xp)).getD 0
      let old_level := calc_level old_xp
      let new_level := calc_level xp_val
      let last_msg := (row.map (fun r => r.last_msg)).getD 0
      let l1 := upsert_user l target xp_val last_msg
      (l1,
       SetxpOutcome.ok target xp_val new_level (get_badge new_level)
         (old_level < new_level),
       [Access.read target, Access.write target xp_val last_msg])

/-- The §4.3 `set_xp` signature, stated from the spec's words for comparison
with `cmd_setxp`: "unconditionally persists the given xp value …, optionally
carrying forward the existing `last_award_at` (if `preserve_last_award`) or
resetting it." -/
def set_xp_spec_model (l : Ledger) (target : Str) (xp_val : Int)
    (preserve_last_award : Bool) : Ledger :=
  let last0 := ((get_user_row l target).map (fun r => r.last_msg)).getD 0
  upsert_user l target xp_val (if preserve_last_award then last0 else 0)

/-- The reply outcome of `cmd_leaderboard`. -/
inductive LeaderboardOutcome where
  | denied
  | noData
  | rows (entries : List (Str × Int × Int × String))
deriving DecidableEq, Repr

/-- `SELECT user_id, xp FROM xp_users ORDER BY xp DESC LIMIT 10` (lines
192-197): the table rows sorted by xp descending, truncated to 10. -/
def top_rows (l : Ledger) : Ledger :=
  (l.mergeSort (fun a b => decide (b.2.xp ≤ a.2.xp))).take 10

/-- `XpBot.cmd_leaderboard` (lines 186-213): admin gate first, then the
top-10 query, formatting each row with its derived level and badge.  The
second component lists the database accesses performed. -/
def cmd_leaderboard (l : Ledger) (sender : Str) :
    LeaderboardOutcome × List Access :=
  if !(is_admin_or_mod sender) then (LeaderboardOutcome.denied, [])
  else
    let rows := top_rows l
    if rows = [] then (LeaderboardOutcome.noData, [Access.readAll])
    else
      (LeaderboardOutcome.rows
        (rows.map (fun p =>
          (p.1, p.2.xp, calc_level p.2.xp, get_badge (calc_level p.2.xp)))),
       [Access.readAll])

-- ----- Helper lemmas about the ledger -----

lemma find?_upsert_map (k : Str) (xp last : Int) (l : Ledger)
    (h : l.any (fun p => p.1 == k) = true) :
    (l.map (fun p => if p.1 == k then (k, UserRow.mk xp last) else p)).find?
      (fun p => p.1 == k) = some (k, UserRow.mk xp last) := by
  induction l with
  | nil => simp at h
  | cons p t ih =>
    by_cases hp : (p.1 == k) = true
    · rw [List.map_cons, if_pos hp]
      simp [List.find?]
    · have hp' : (p.1 == k) = false := by simpa using hp
      rw [List.map_cons, if_neg hp]
      simp only [List.find?, hp']
      refine ih ?_
      rw [List.any_cons, hp', Bool.false_or] at h
      exact h

/-- After an upsert, reading the upserted key returns exactly the new row. -/
lemma get_user_row_upsert_self (l : Ledger) (k : Str) (xp last : Int) :
    get_user_row (upsert_user l k xp last) k = some (UserRow.mk xp last) := by
  unfold upsert_user get_user_row
  by_cases h : l.any (fun p => p.1 == k) = true
  · rw [if_pos h, find?_upsert_map k xp last l h, Option.map_some']
  · rw [if_neg h, List.find?_append]
    have h' : l.any (fun p => p.1 == k) = false := by
      cases hb : l.any (fun p => p.1 == k) with
      | false => rfl
      | true => exact absurd hb h
    have hnone : l.find? (fun p => p.1 == k) = none :=
      List.find?_eq_none.mpr (List.any_eq_false.mp h')
    rw [hnone]
    simp [List.find?]

/-- `award`, unfolded on a present row: reject inside the cooldown window,
otherwise upsert and report a level-up exactly when the level rose. -/
lemma award_eq_of_row (l : Ledger) (key : Str) (xp last now : Int)
    (hrow : get_user_row l key = some (UserRow.mk xp last)) :
    award l key now =
      if now - last < COOLDOWN then (l, none)
      else
        (upsert_user l key (xp + XP_PER_MESSAGE) now,
         if calc_level xp < calc_level (xp + XP_PER_MESSAGE) then
           some (LevelUpEvent.mk key (calc_level (xp + XP_PER_MESSAGE))
             (get_badge (calc_level (xp + XP_PER_MESSAGE))))
         else none) := by
  by_cases h1 : now - last < COOLDOWN
  · simp [award, hrow, h1]
  · by_cases h2 : calc_level xp < calc_level (xp + XP_PER_MESSAGE)
    · simp [award, hrow, h1, h2]
    · simp [award, hrow, h1, h2]

-- ----- Claim theorems -----

/-- C1.  Cooldown gating of message-driven awards: with a stored row
`(xp, last)` for `key`, an attempt at `now` with `now - last < COOLDOWN` is
a silent no-op (ledger returned unchanged, no event), this persists over
arbitrarily many in-window attempts, and an attempt with
`now - last ≥ COOLDOWN` is accepted and persists `xp + XP_PER_MESSAGE`
with `last_award_at = now`. -/
theorem claim1_cooldown_gating (l : Ledger) (key : Str) (xp last now : Int)
    (hrow : get_user_row l key = some (UserRow.mk xp last)) :
    (now - last < COOLDOWN → award l key now = (l, none)) ∧
    (∀ ts : List Int, (∀ t ∈ ts, t - last < COOLDOWN) →
      award_iter l key ts = l) ∧
    (COOLDOWN ≤ now - last →
      get_user_row (award l key now).1 key
          = some (UserRow.mk (xp + XP_PER_MESSAGE) now) ∧
      (award l key now).1 = upsert_user l key (xp + XP_PER_MESSAGE) now) := by
  have hrej : ∀ m : Int, m - last < COOLDOWN → award l key m = (l, none) := by
    intro m hm
    rw [award_eq_of_row l key xp last m hrow, if_pos hm]
  refine ⟨hrej now, ?_, ?_⟩
  · intro ts hts
    induction ts with
    | nil => rfl
    | cons t rest ih =>
      have hstep : (award l key t).1 = l := by
        rw [hrej t (hts t (List.mem_cons_self t rest))]
      calc award_iter l key (t :: rest)
          = award_iter (award l key t).1 key rest := by
            simp [award_iter, List.foldl_cons]
        _ = award_iter l key rest := by rw [hstep]
        _ = l := ih (fun u hu => hts u (List.mem_cons_of_mem t hu))
  · intro hacc
    have h1 : (award l key now).1 = upsert_user l key (xp + XP_PER_MESSAGE) now := by
      rw [award_eq_of_row l key xp last now hrow, if_neg (by omega)]
    exact ⟨by rw [h1]; exact get_user_row_upsert_self l key _ now, h1⟩

/-- Witness for C1 at the spec's boundary example: `COOLDOWN = 5`,
`last_award_at = 100`; `now = 104` is rejected with no state change,
`now = 105` is accepted and persists `0 + XP_PER_MESSAGE = 5` with
`last_award_at = 105`. -/
theorem claim1_cooldown_gating_witness :
    award [(("@u:j5.chat").toList, UserRow.mk 0 100)] ("@u:j5.chat").toList 104
        = ([(("@u:j5.chat").toList, UserRow.mk 0 100)], none) ∧
    get_user_row
        (award [(("@u:j5.chat").toList, UserRow.mk 0 100)]
          ("@u:j5.chat").toList 105).1 ("@u:j5.chat").toList
        = some (UserRow.mk 5 105) :=
  ⟨(claim1_cooldown_gating [(("@u:j5.chat").toList, UserRow.mk 0 100)]
      ("@u:j5.chat").toList 0 100 104 (by decide)).1 (by decide),
   ((claim1_cooldown_gating [(("@u:j5.chat").toList, UserRow.mk 0 100)]
      ("@u:j5.chat").toList 0 100 105 (by decide)).2.2 (by decide)).1⟩

/-- C2.  Level-up event condition: an accepted award emits
`LevelUpEvent(key, new_level, badge_of(new_level))` iff
`new_level > old_level`, where `old_level = calc_level xp` and
`new_level = calc_level (xp + XP_PER_MESSAGE)`. -/
theorem claim2_levelup_condition (l : Ledger) (key : Str) (xp last now : Int)
    (hrow : get_user_row l key = some (UserRow.mk xp last))
    (hacc : COOLDOWN ≤ now - last) :
    (calc_level xp < calc_level (xp + XP_PER_MESSAGE) →
      (award l key now).2
        = some (LevelUpEvent.mk key (calc_level (xp + XP_PER_MESSAGE))
            (get_badge (calc_level (xp + XP_PER_MESSAGE))))) ∧
    (¬ calc_level xp < calc_level (xp + XP_PER_MESSAGE) →
      (award l key now).2 = none) := by
  have h := award_eq_of_row l key xp last now hrow
  rw [if_neg (by omega)] at h
  constructor
  · intro hup
    rw [h]
    simp [hup]
  · intro hup
    rw [h]
    simp [hup]

/-- Witness for C2 at the spec's examples: an accepted award at `xp = 98`
crosses `100` and emits the level-1 event with the level-1 badge; an
accepted award at `xp = 10` stays at level 0 and emits nothing. -/
theorem claim2_levelup_condition_witness :
    (award [(("@u:j5.chat").toList, UserRow.mk 98 100)]
        ("@u:j5.chat").toList 105).2
      = some (LevelUpEvent.mk ("@u:j5.chat").toList 1 "🥉 Bronze") ∧
    (award [(("@u:j5.chat").toList, UserRow.mk 10 100)]
        ("@u:j5.chat").toList 105).2 = none :=
  ⟨((claim2_levelup_condition [(("@u:j5.chat").toList, UserRow.mk 98 100)]
      ("@u:j5.chat").toList 98 100 105 (by decide) (by decide)).1
        (by decide)).trans (by decide),
   (claim2_levelup_condition [(("@u:j5.chat").toList, UserRow.mk 10 100)]
      ("@u:j5.chat").toList 10 100 105 (by decide) (by decide)).2 (by decide)⟩

/-- C3.  `setxp` validation failures are detected before any ledger access
and cause no mutation: a non-admin sender gets `unauthorized` with the
ledger returned untouched and an empty database-access trace; an admin
sender whose xp string fails integer parsing gets `invalidInput`, again
with the ledger untouched and an empty access trace. -/
theorem claim3_setxp_validation (l : Ledger) (sender user xpstr : Str) :
    (is_admin_or_mod sender = false →
      cmd_setxp l sender user xpstr = (l, SetxpOutcome.unauthorized, [])) ∧
    (is_admin_or_mod sender = true → parse_int xpstr = none →
      cmd_setxp l sender user xpstr = (l, SetxpOutcome.invalidInput, [])) := by
  constructor
  · intro hadmin
    simp [cmd_setxp, hadmin]
  · intro hadmin hparse
    simp [cmd_setxp, hadmin, hparse]

/-- Witness for C3: a non-admin caller is denied with no ledger access, and
the admin calling `setxp u abc` gets the invalid-input denial with no
ledger access, on a concrete one-row ledger. -/
theorem claim3_setxp_validation_witness :
    cmd_setxp [(("@u:j5.chat").toList, UserRow.mk 10 42)]
        ("@user:j5.chat").toList ("u").toList ("5").toList
      = ([(("@u:j5.chat").toList, UserRow.mk 10 42)],
         SetxpOutcome.unauthorized, []) ∧
    cmd_setxp [(("@u:j5.chat").toList, UserRow.mk 10 42)]
        ("@admin:j5.chat").toList ("u").toList ("abc").toList
      = ([(("@u:j5.chat").toList, UserRow.mk 10 42)],
         SetxpOutcome.invalidInput, []) :=
  ⟨(claim3_setxp_validation [(("@u:j5.chat").toList, UserRow.mk 10 42)]
      ("@user:j5.chat").toList ("u").toList ("5").toList).1 (by decide),
   (claim3_setxp_validation [(("@u:j5.chat").toList, UserRow.mk 10 42)]
      ("@admin:j5.chat").toList ("u").toList ("abc").toList).2
        (by decide) (by decide)⟩

/-- C4 (amended).  For an authorized `setxp` with a valid integer, the code
persists the given xp unconditionally (no cooldown check on any ledger
state) and always carries the stored `last_msg` forward (0 for an absent
row); it behaves exactly as the spec's `set_xp` with
`preserve_last_award = true`, and offers no resetting variant. -/
theorem claim4_setxp_frame (l : Ledger) (sender user xpstr : Str) (v : Int)
    (hadmin : is_admin_or_mod sender = true)
    (hparse : parse_int xpstr = some v) :
    get_user_row (cmd_setxp l sender user xpstr).1 (normalize_user user)
        = some (UserRow.mk v
            (((get_user_row l (normalize_user user)).map
                (fun r => r.last_msg)).getD 0)) ∧
    (cmd_setxp l sender user xpstr).1
        = set_xp_spec_model l (normalize_user user) v true := by
  have h1 : (cmd_setxp l sender user xpstr).1
      = upsert_user l (normalize_user user) v
          (((get_user_row l (normalize_user user)).map
              (fun r => r.last_msg)).getD 0) := by
    simp [cmd_setxp, hadmin, hparse]
  exact ⟨by rw [h1]; exact get_user_row_upsert_self l _ v _,
         by rw [h1]; rfl⟩

/-- Witness for C4: the admin setting xp to 7 for a user whose stored row is
`(xp 10, last_msg 42)` persists `(7, 42)` — the timestamp is carried
forward. -/
theorem claim4_setxp_frame_witness :
    get_user_row
        (cmd_setxp [(("@u:j5.chat").toList, UserRow.mk 10 42)]
          ("@admin:j5.chat").toList ("u").toList ("7").toList).1
        (normalize_user ("u").toList)
      = some (UserRow.mk 7 42) :=
  ((claim4_setxp_frame [(("@u:j5.chat").toList, UserRow.mk 10 42)]
      ("@admin:j5.chat").toList ("u").toList ("7").toList 7
      (by decide) (by decide)).1).trans (by decide)

/-- Counterexample for C4 as stated: there is no `preserve_last_award`
option in the code.  On the concrete row `(xp 10, last_msg 42)` the code
carries `last_msg = 42` forward, while the spec's `set_xp` with
`preserve_last_award = false` would reset it to 0 — the two disagree, so
the code does not implement the claimed carry-or-reset selection. -/
theorem claim4_setxp_frame_counterexample :
    (cmd_setxp [(("@u:j5.chat").toList, UserRow.mk 10 42)]
        ("@admin:j5.chat").toList ("u").toList ("7").toList).1
      = [(("@u:j5.chat").toList, UserRow.mk 7 42)] ∧
    set_xp_spec_model [(("@u:j5.chat").toList, UserRow.mk 10 42)]
        (("@u:j5.chat").toList) 7 false
      = [(("@u:j5.chat").toList, UserRow.mk 7 0)] ∧
    UserRow.mk 7 42 ≠ UserRow.mk 7 0 := by
  refine ⟨by decide, by decide, by decide⟩

/-- C8 (implicit claim).  The leaderboard command is admin-gated: a caller
outside the fixed admin set gets the denial reply and the handler performs
no database access at all. -/
theorem claim8_leaderboard_admin_gate (l : Ledger) (sender : Str)
    (h : is_admin_or_mod sender = false) :
    cmd_leaderboard l sender = (LeaderboardOutcome.denied, []) := by
  simp [cmd_leaderboard, h]

/-- Witness for C8: a concrete non-admin sender is denied on a nonempty
ledger, with an empty database-access trace. -/
theorem claim8_leaderboard_admin_gate_witness :
    cmd_leaderboard [(("@u:j5.chat").toList, UserRow.mk 10 42)]
        ("@user:j5.chat").toList
      = (LeaderboardOutcome.denied, []) :=
  claim8_leaderboard_admin_gate [(("@u:j5.chat").toList, UserRow.mk 10 42)]
    ("@user:j5.chat").toList (by decide)

/-- C9 (implicit claim).  Single-step level growth: since
`XP_PER_MESSAGE = 5 ≤ 100 = XP_PER_LEVEL`, one message-driven award from
any `xp ≥ 0` raises the derived level by at most one. -/
theorem claim9_single_step_level (xp : Int) (hxp : 0 ≤ xp) :
    calc_level (xp + XP_PER_MESSAGE) ≤ calc_level xp + 1 := by
  obtain ⟨n, rfl⟩ := Int.eq_ofNat_of_zero_le hxp
  have h5 : (n : Int) + XP_PER_MESSAGE = ((n + 5 : Nat) : Int) := by
    simp [XP_PER_MESSAGE]
  rw [h5]
  unfold calc_level XP_PER_LEVEL
  rw [show ((100 : Int)) = ((100 : Nat) : Int) from rfl]
  rw [← Int.ofNat_fdiv, ← Int.ofNat_fdiv]
  have : (n + 5) / 100 ≤ n / 100 + 1 := by omega
  exact_mod_cast this

/-- Witness for C9 at the spec's level-up example: from `xp = 98` the award
reaches level 1 which is at most `level_of 98 + 1 = 1`. -/
theorem claim9_single_step_level_witness :
    (0 : Int) ≤ 98 ∧ calc_level (98 + XP_PER_MESSAGE) ≤ calc_level 98 + 1 :=
  ⟨by decide, claim9_single_step_level 98 (by decide)⟩

/-- C6.  Badge resolution: `get_badge` returns the label of the highest
milestone ≤ level in the fixed table, and the empty label when no
milestone qualifies; spelled both as the maximality property over
`BADGES_DESC` and as the interval characterization. -/
theorem claim6_badge_resolution (level : Int) :
    ((∀ p ∈ BADGES_DESC, ¬ p.1 ≤ level) → get_badge level = "") ∧
    (∀ p ∈ BADGES_DESC, p.1 ≤ level →
      (∀ q ∈ BADGES_DESC, q.1 ≤ level → q.1 ≤ p.1) →
      get_badge level = p.2) ∧
    (level < 1 → get_badge level = "") ∧
    (1 ≤ level → level < 5 → get_badge level = "🥉 Bronze") ∧
    (5 ≤ level → level < 10 → get_badge level = "🥈 Silver") ∧
    (10 ≤ level → level < 20 → get_badge level = "🥇 Gold") ∧
    (20 ≤ level → get_badge level = "🏆 Platinum") := by
  have hempty : level < 1 → get_badge level = "" := by
    intro h
    simp only [get_badge, BADGES_DESC, badge_scan]
    rw [if_neg (by omega), if_neg (by omega), if_neg (by omega),
        if_neg (by omega)]
  have hbronze : 1 ≤ level → level < 5 → get_badge level = "🥉 Bronze" := by
    intro h1 h2
    simp only [get_badge, BADGES_DESC, badge_scan]
    rw [if_neg (by omega), if_neg (by omega), if_neg (by omega), if_pos h1]
  have hsilver : 5 ≤ level → level < 10 → get_badge level = "🥈 Silver" := by
    intro h1 h2
    simp only [get_badge, BADGES_DESC, badge_scan]
    rw [if_neg (by omega), if_neg (by omega), if_pos h1]
  have hgold : 10 ≤ level → level < 20 → get_badge level = "🥇 Gold" := by
    intro h1 h2
    simp only [get_badge, BADGES_DESC, badge_scan]
    rw [if_neg (by omega), if_pos h1]
  have hplat : 20 ≤ level → get_badge level = "🏆 Platinum" := by
    intro h
    simp only [get_badge, BADGES_DESC, badge_scan]
    rw [if_pos h]
  refine ⟨?_, ?_, hempty, hbronze, hsilver, hgold, hplat⟩
  · intro hall
    refine hempty ?_
    have := hall (1, "🥉 Bronze") (by simp [BADGES_DESC])
    omega
  · intro p hp hple hmax
    simp only [BADGES_DESC, List.mem_cons, List.not_mem_nil, or_false] at hp
    rcases hp with rfl | rfl | rfl | rfl
    · exact hplat hple
    · have h20 : level < 20 := by
        by_contra hc
        push_neg at hc
        have := hmax (20, "🏆 Platinum") (by simp [BADGES_DESC]) hc
        simp at this
      exact hgold hple h20
    · have h10 : level < 10 := by
        by_contra hc
        push_neg at hc
        have := hmax (10, "🥇 Gold") (by simp [BADGES_DESC]) hc
        simp at this
      exact hsilver hple h10
    · have h5 : level < 5 := by
        by_contra hc
        push_neg at hc
        have := hmax (5, "🥈 Silver") (by simp [BADGES_DESC]) hc
        simp at this
      exact hbronze hple h5

/-- Witness for C6 at the claim's four sample levels:
`get_badge 0 = ""`, `get_badge 4` is the level-1 label, `get_badge 20` and
`get_badge 100` are the level-20 label. -/
theorem claim6_badge_resolution_witness :
    get_badge 0 = "" ∧ get_badge 4 = "🥉 Bronze" ∧
    get_badge 20 = "🏆 Platinum" ∧ get_badge 100 = "🏆 Platinum" :=
  ⟨(claim6_badge_resolution 0).2.2.1 (by decide),
   (claim6_badge_resolution 4).2.2.2.1 (by decide) (by decide),
   (claim6_badge_resolution 20).2.2.2.2.2.2 (by decide),
   (claim6_badge_resolution 100).2.2.2.2.2.2 (by decide)⟩

/-- C7.  Leaderboard projection: on a ledger with pairwise-distinct keys
the query returns `min (number of users) 10` rows, ordered by xp
descending, and those rows are a prefix-selection of the full descending
sort, which is a permutation of the ledger.  The query is a pure function
of the ledger, so repeated calls with no intervening write are equal by
definition. -/
theorem claim7_leaderboard_projection (l : Ledger)
    (_hkeys : (l.map Prod.fst).Nodup) :
    (top_rows l).length = min l.length 10 ∧
    (top_rows l).Pairwise (fun a b => b.2.xp ≤ a.2.xp) ∧
    (l.mergeSort (fun a b => decide (b.2.xp ≤ a.2.xp))).Perm l ∧
    (top_rows l).Sublist (l.mergeSort (fun a b => decide (b.2.xp ≤ a.2.xp))) := by
  refine ⟨?_, ?_, List.mergeSort_perm l _, List.take_sublist 10 _⟩
  · simp only [top_rows]
    rw [List.length_take, List.length_mergeSort]
    exact Nat.min_comm 10 l.length
  · have hs : (l.mergeSort (fun a b => decide (b.2.xp ≤ a.2.xp))).Pairwise
        (fun a b => (decide (b.2.xp ≤ a.2.xp)) = true) := by
      refine List.sorted_mergeSort ?_ ?_ l
      · intro a b c hab hbc
        have h1 := of_decide_eq_true hab
        have h2 := of_decide_eq_true hbc
        exact decide_eq_true (le_trans h2 h1)
      · intro a b
        rcases le_total b.2.xp a.2.xp with h | h
        · simp [h]
        · simp [h]
    have ht : (top_rows l).Pairwise
        (fun a b => (decide (b.2.xp ≤ a.2.xp)) = true) :=
      List.Pairwise.sublist (List.take_sublist 10 _) hs
    exact ht.imp (fun h => of_decide_eq_true h)

/-- Witness for C7 on a concrete two-user ledger with distinct keys: the
query returns `min 2 10 = 2` rows. -/
theorem claim7_leaderboard_projection_witness :
    (top_rows [(("@a:x").toList, UserRow.mk 5 0),
               (("@b:x").toList, UserRow.mk 9 0)]).length
      = min ([(("@a:x").toList, UserRow.mk 5 0),
              (("@b:x").toList, UserRow.mk 9 0)] : Ledger).length 10 :=
  (claim7_leaderboard_projection
    [(("@a:x").toList, UserRow.mk 5 0), (("@b:x").toList, UserRow.mk 9 0)]
    (by decide)).1

-- ----- Helper lemmas about strip and the normalizer -----

lemma head?_ltrim (s : Str) : ∀ c, (ltrim s).head? = some c → isSpace c = false := by
  induction s with
  | nil => intro c hc; simp [ltrim] at hc
  | cons a t ih =>
    intro c hc
    by_cases ha : isSpace a = true
    · rw [show ltrim (a :: t) = ltrim t by simp [ltrim, List.dropWhile_cons, ha]] at hc
      exact ih c hc
    · have ha' : isSpace a = false := Bool.eq_false_iff.mpr ha
      rw [show ltrim (a :: t) = a :: t by simp [ltrim, List.dropWhile_cons, ha']] at hc
      rw [List.head?_cons] at hc
      injection hc with h
      rw [← h]
      exact ha'

lemma ltrim_eq_self (s : Str) (h : ∀ c, s.head? = some c → isSpace c = false) :
    ltrim s = s := by
  cases s with
  | nil => rfl
  | cons a t =>
    have ha := h a (List.head?_cons)
    simp [ltrim, List.dropWhile_cons, ha]

lemma rtrim_head? (s : Str) (h : rtrim s ≠ []) : (rtrim s).head? = s.head? := by
  induction s with
  | nil => exact absurd rfl h
  | cons a t ih =>
    cases hr : rtrim t with
    | nil =>
      by_cases ha : isSpace a = true
      · exact absurd (by simp [rtrim, hr, ha]) h
      · have ha' : isSpace a = false := Bool.eq_false_iff.mpr ha
        rw [show rtrim (a :: t) = [a] by simp [rtrim, hr, ha']]
        rfl
    | cons b m =>
      rw [show rtrim (a :: t) = a :: b :: m by simp [rtrim, hr]]
      rfl

lemma rtrim_cons (a : Char) (t : Str) :
    rtrim (a :: t) =
      match rtrim t with
      | [] => if isSpace a then [] else [a]
      | r => a :: r := by
  rw [rtrim]

lemma rtrim_idem (s : Str) : rtrim (rtrim s) = rtrim s := by
  induction s with
  | nil => rfl
  | cons a t ih =>
    cases hr : rtrim t with
    | nil =>
      by_cases ha : isSpace a = true
      · rw [show rtrim (a :: t) = [] by simp [rtrim, hr, ha]]
        rfl
      · have ha' : isSpace a = false := Bool.eq_false_iff.mpr ha
        rw [show rtrim (a :: t) = [a] by simp [rtrim, hr, ha']]
        simp [rtrim, ha']
    | cons b m =>
      rw [show rtrim (a :: t) = a :: b :: m by simp [rtrim, hr]]
      have ih' : rtrim (b :: m) = b :: m := by rw [hr] at ih; exact ih
      rw [rtrim_cons, ih']

lemma rtrim_eq_self (s : Str) (h : ∀ c, s.getLast? = some c → isSpace c = false) :
    rtrim s = s := by
  induction s with
  | nil => rfl
  | cons a t ih =>
    cases t with
    | nil =>
      have ha := h a rfl
      simp [rtrim, ha]
    | cons b m =>
      have ht : rtrim (b :: m) = b :: m := by
        refine ih ?_
        intro c hc
        refine h c ?_
        rw [List.getLast?_cons_cons]
        exact hc
      rw [rtrim_cons, ht]

lemma strip_eq_self (s : Str)
    (h1 : ∀ c, s.head? = some c → isSpace c = false)
    (h2 : ∀ c, s.getLast? = some c → isSpace c = false) :
    strip s = s := by
  rw [strip, ltrim_eq_self s h1, rtrim_eq_self s h2]

lemma strip_strip (s : Str) : strip (strip s) = strip s := by
  cases hz : rtrim (ltrim s) with
  | nil =>
    have hs : strip s = [] := hz
    rw [hs]
    rfl
  | cons b m =>
    have hne : rtrim (ltrim s) ≠ [] := by rw [hz]; simp
    have hhead : ∀ c, (rtrim (ltrim s)).head? = some c → isSpace c = false := by
      intro c hc
      rw [rtrim_head? (ltrim s) hne] at hc
      exact head?_ltrim s c hc
    calc strip (strip s) = rtrim (ltrim (strip s)) := rfl
      _ = rtrim (strip s) := by rw [ltrim_eq_self (strip s) hhead]
      _ = strip s := rtrim_idem (ltrim s)

lemma contains_colon_append (x : Str) : (x ++ domainSuffix).contains ':' = true := by
  induction x with
  | nil => decide
  | cons a t ih =>
    rw [List.cons_append, List.contains_cons, ih, Bool.or_true]

/-- `normalize_user` on a nonempty input, unfolded. -/
lemma normalize_user_not_nil (s : Str) (hne : s ≠ []) :
    normalize_user s =
      if startsWithSigil (strip s) && (strip s).contains ':' then strip s
      else if startsWithSigil (strip s) then
        '@' :: ((strip s).drop 1) ++ domainSuffix
      else if !((strip s).contains ':') then '@' :: strip s ++ domainSuffix
      else strip s := by
  rw [normalize_user, if_neg hne]

/-- Every string of the shape `'@' :: x ++ ":j5.chat"` — exactly the shapes
`normalize_user` builds — is a fixed point of `normalize_user`. -/
lemma normalize_fix_cons_suffix (x : Str) :
    normalize_user ('@' :: x ++ domainSuffix) = '@' :: x ++ domainSuffix := by
  have hne : ('@' :: x ++ domainSuffix) ≠ [] := by simp
  have hstrip : strip ('@' :: x ++ domainSuffix) = '@' :: x ++ domainSuffix := by
    refine strip_eq_self _ ?_ ?_
    · intro c hc
      have hc2 : some '@' = some c := hc
      injection hc2 with h
      rw [← h]
      decide
    · intro c hc
      rw [show ('@' :: x ++ domainSuffix) = ('@' :: x) ++ domainSuffix from rfl,
          List.getLast?_append] at hc
      rw [show domainSuffix.getLast? = some 't' from rfl] at hc
      rw [show (some 't').or (('@' :: x).getLast?) = some 't' from rfl] at hc
      injection hc with h
      rw [← h]
      decide
  have hsig : startsWithSigil ('@' :: x ++ domainSuffix) = true := rfl
  have hcon : ('@' :: x ++ domainSuffix).contains ':' = true := by
    rw [List.cons_append, List.contains_cons, contains_colon_append, Bool.or_true]
  rw [normalize_user_not_nil _ hne, hstrip, hsig, hcon]
  simp

/-- C5 (amended).  Identity Normalizer contract: empty input yields the
empty string; a nonempty all-whitespace input strips to the empty local
part and yields `"@:j5.chat"` (sigil and suffix around it), not the empty
string; otherwise, writing `u` for the stripped input: `@name:domain`
inputs come back as `u`; `@name` inputs (no colon) get the suffix appended;
bare names without a colon get both sigil and suffix; bare names with a
colon come back as `u`. -/
theorem claim5_normalizer_contract (s : Str) :
    (s = [] → normalize_user s = []) ∧
    (s ≠ [] → strip s = [] → normalize_user s = '@' :: domainSuffix) ∧
    (s ≠ [] → strip s ≠ [] →
      ((startsWithSigil (strip s) = true → (strip s).contains ':' = true →
          normalize_user s = strip s) ∧
       (startsWithSigil (strip s) = true → (strip s).contains ':' = false →
          normalize_user s = '@' :: ((strip s).drop 1) ++ domainSuffix) ∧
       (startsWithSigil (strip s) = false → (strip s).contains ':' = false →
          normalize_user s = '@' :: strip s ++ domainSuffix) ∧
       (startsWithSigil (strip s) = false → (strip s).contains ':' = true →
          normalize_user s = strip s))) := by
  refine ⟨?_, ?_, ?_⟩
  · intro h
    rw [normalize_user, if_pos h]
  · intro hne hstrip
    rw [normalize_user_not_nil s hne, hstrip]
    decide
  · intro hne hsne
    refine ⟨?_, ?_, ?_, ?_⟩ <;> intro hsig hcon <;>
      rw [normalize_user_not_nil s hne, hsig, hcon] <;> simp

/-- Witness for C5 at the spec's four round-trip examples. -/
theorem claim5_normalizer_contract_witness :
    normalize_user (("@a:b.c").toList) = ("@a:b.c").toList ∧
    normalize_user (("@a").toList) = ("@a:j5.chat").toList ∧
    normalize_user (("a").toList) = ("@a:j5.chat").toList ∧
    normalize_user (("a:b.c").toList) = ("a:b.c").toList :=
  ⟨(((claim5_normalizer_contract (("@a:b.c").toList)).2.2
      (by decide) (by decide)).1 (by decide) (by decide)).trans (by decide),
   (((claim5_normalizer_contract (("@a").toList)).2.2
      (by decide) (by decide)).2.1 (by decide) (by decide)).trans (by decide),
   (((claim5_normalizer_contract (("a").toList)).2.2
      (by decide) (by decide)).2.2.1 (by decide) (by decide)).trans (by decide),
   (((claim5_normalizer_contract (("a:b.c").toList)).2.2
      (by decide) (by decide)).2.2.2 (by decide) (by decide)).trans (by decide)⟩

/-- Counterexample for C5 as stated: the all-whitespace input `" "` is
blank but `normalize_user` returns `"@:j5.chat"`, not the empty string —
the empty-check precedes the strip in the source. -/
theorem claim5_normalizer_contract_counterexample :
    normalize_user ((" ").toList) = ("@:j5.chat").toList ∧
    normalize_user ((" ").toList) ≠ ([] : Str) :=
  ⟨by decide, by decide⟩

/-- C10 (implicit claim).  The normalizer is idempotent: every output of
`normalize_user` is a fixed point of `normalize_user`. -/
theorem claim10_normalize_idempotent (s : Str) :
    normalize_user (normalize_user s) = normalize_user s := by
  by_cases hs : s = []
  · rw [hs]
    rfl
  · by_cases hune : strip s = []
    · have h1 : normalize_user s = '@' :: ([] : Str) ++ domainSuffix := by
        rw [normalize_user_not_nil s hs, hune]
        decide
      rw [h1]
      exact normalize_fix_cons_suffix []
    · cases hsig : startsWithSigil (strip s) with
      | false =>
        cases hcon : (strip s).contains ':' with
        | false =>
          have h1 : normalize_user s = '@' :: strip s ++ domainSuffix := by
            rw [normalize_user_not_nil s hs, hsig, hcon]
            simp
          rw [h1]
          exact normalize_fix_cons_suffix (strip s)
        | true =>
          have h1 : normalize_user s = strip s := by
            rw [normalize_user_not_nil s hs, hsig, hcon]
            simp
          rw [h1]
          rw [normalize_user_not_nil (strip s) hune, strip_strip, hsig, hcon]
          simp
      | true =>
        cases hcon : (strip s).contains ':' with
        | false =>
          have h1 : normalize_user s = '@' :: (strip s).drop 1 ++ domainSuffix := by
            rw [normalize_user_not_nil s hs, hsig, hcon]
            simp
          rw [h1]
          exact normalize_fix_cons_suffix ((strip s).drop 1)
        | true =>
          have h1 : normalize_user s = strip s := by
            rw [normalize_user_not_nil s hs, hsig, hcon]
            simp
          rw [h1]
          rw [normalize_user_not_nil (strip s) hune, strip_strip, hsig, hcon]
          simp
